import Mathlib

/-!
Verification of the scheduling core of the event-loop-visualizer repository.

Part 1 — the code-to-steps compiler (src/event-loop-visualizer/src/utils/codeExecutor.js):
the AST produced by the external `esprima` parser is modeled as a dynamically
typed JavaScript value (`JSVal`); `parseCodeToSteps`, `traverseAST`,
`createExecutionStep` and the extraction helpers are translated clause by clause.
JavaScript numbers are IEEE doubles; every program analysed here performs only
small-integer arithmetic on them, which is exact, so numbers are modeled as `Int`.

Part 2 — the queue/task state machine (src/event-loop-visualizer/src/store/eventLoopSlice.js):
each Redux reducer and thunk is a pure function on an explicit `EventLoopState`.
Impure inputs of the original (`Date.now()`, `Math.random()`,
`toLocaleTimeString()`) become explicit parameters.
-/

/-- A dynamically typed JavaScript value.  Objects keep their fields in
insertion order, which is the order `for (const key in node)` enumerates
string-keyed properties. -/
inductive JSVal where
  | vnum (n : Int)
  | vstr (s : String)
  | vbool (b : Bool)
  | vnull
  | vundef
  | vobj (fields : List (String × JSVal))
  | varr (elems : List JSVal)

namespace JSVal

/-- JavaScript truthiness test, negated: `!v` is `true` exactly on
`undefined`, `null`, `false`, `0`, and the empty string. -/
def jsFalsy : JSVal → Bool
  | vundef => true
  | vnull => true
  | vbool b => !b
  | vnum n => n == 0
  | vstr s => s == ""
  | vobj _ => false
  | varr _ => false

/-- Property access `v[k]`: on an object, the value stored under the first
matching key; anything else (including a missing key) yields `undefined`.
(Array index/length properties and string indices are never object-valued
nor accessed by name in the modeled code, so they read as `undefined`.) -/
def getField : JSVal → String → JSVal
  | vobj fields, k =>
      match fields.find? (fun p => p.1 == k) with
      | some p => p.2
      | none => vundef
  | _, _ => vundef

/-- JavaScript `String(v)` as used by template literals.  Array elements
that are `null`/`undefined` render as the empty string inside the implicit
`join`. -/
def jsToString : JSVal → String
  | vnum n => toString n
  | vstr s => s
  | vbool b => if b then "true" else "false"
  | vnull => "null"
  | vundef => "undefined"
  | varr es => String.intercalate "," (es.map fun e =>
      match e with
      | vnull => ""
      | vundef => ""
      | vnum n => toString n
      | vstr s => s
      | vbool b => if b then "true" else "false"
      | vobj _ => "[object Object]"
      | varr _ => "[nested array]")
  | vobj _ => "[object Object]"

/-- Element rendering of `Array.prototype.join`: `null` and `undefined`
become the empty string, everything else its string form. -/
def joinStr (v : JSVal) : String :=
  match v with
  | vnull => ""
  | vundef => ""
  | _ => jsToString v

/-- Whether the value is a JavaScript string. -/
def isString : JSVal → Bool
  | vstr _ => true
  | _ => false

end JSVal

open JSVal

/-- Assignment `obj[k] = v` on a JavaScript object literal: an existing key
keeps its position and gets the new value, a new key is appended. -/
def objInsert : List (String × JSVal) → String → JSVal → List (String × JSVal)
  | [], k, v => [(k, v)]
  | (k0, v0) :: rest, k, v =>
      if k0 == k then (k0, v) :: rest else (k0, v0) :: objInsert rest k v

theorem sizeOf_lt_of_mem_fields {fields : List (String × JSVal)} {p : String × JSVal}
    (h : p ∈ fields) : sizeOf p.2 < sizeOf (JSVal.vobj fields) := by
  induction fields with
  | nil => cases h
  | cons q rest ih =>
      rcases List.mem_cons.mp h with rfl | h2
      · cases p with
        | mk a b =>
            simp only [JSVal.vobj.sizeOf_spec, List.cons.sizeOf_spec,
              Prod.mk.sizeOf_spec]
            omega
      · have := ih h2
        simp only [JSVal.vobj.sizeOf_spec, List.cons.sizeOf_spec] at *
        omega

theorem sizeOf_getField_lt_of_obj (fields : List (String × JSVal)) (k : String) :
    sizeOf (getField (JSVal.vobj fields) k) < sizeOf (JSVal.vobj fields) := by
  simp only [getField]
  cases hf : fields.find? (fun p => p.1 == k) with
  | none =>
      have h1 : 1 ≤ sizeOf fields := by
        cases fields with
        | nil => simp
        | cons a l => simp only [List.cons.sizeOf_spec]; omega
      simp only [JSVal.vundef.sizeOf_spec, JSVal.vobj.sizeOf_spec]
      omega
  | some p => exact sizeOf_lt_of_mem_fields (List.mem_of_find?_eq_some hf)

/-- If some property of `node` reads as a non-`undefined` value, `node` is an
object, so any property access on it is a strict subterm by size. -/
theorem sizeOf_getField_lt {node : JSVal} {k1 : String}
    (h : getField node k1 ≠ JSVal.vundef) (k2 : String) :
    sizeOf (getField node k2) < sizeOf node := by
  cases node with
  | vobj fields => exact sizeOf_getField_lt_of_obj fields k2
  | vnum n => simp [getField] at h
  | vstr s => simp [getField] at h
  | vbool b => simp [getField] at h
  | vnull => simp [getField] at h
  | vundef => simp [getField] at h
  | varr es => simp [getField] at h

theorem getField_ne_undef_of_not_falsy {node : JSVal} {k : String}
    (h : jsFalsy (getField node k) = false) : getField node k ≠ JSVal.vundef := by
  intro he; rw [he] at h; simp [jsFalsy] at h

theorem sizeOf_lt_of_mem_elems {elems : List JSVal} {e : JSVal}
    (h : e ∈ elems) : sizeOf e < sizeOf (JSVal.varr elems) := by
  induction elems with
  | nil => cases h
  | cons q rest ih =>
      rcases List.mem_cons.mp h with rfl | h2
      · simp only [JSVal.varr.sizeOf_spec, List.cons.sizeOf_spec]; omega
      · have := ih h2
        simp only [JSVal.varr.sizeOf_spec, List.cons.sizeOf_spec] at *
        omega

mutual

/-- `extractValue(node)` of codeExecutor.js: resolve a right-hand side to a
display value without executing it.  The `if/else if` chain on
`node.type === '...'` is a match on the `type` property. -/
def extractValue (node : JSVal) : JSVal :=
  if jsFalsy node then JSVal.vundef
  else
    match getField node "type" with
    | JSVal.vstr "Literal" => getField node "value"
    | JSVal.vstr "Identifier" => getField node "name"
    | JSVal.vstr "BinaryExpression" => evaluateBinaryExpression node
    | JSVal.vstr "ObjectExpression" => extractObjectProperties node
    | JSVal.vstr "ArrayExpression" => extractArrayElements node
    | _ => JSVal.vstr "[Expression]"
termination_by (sizeOf node, 1)
decreasing_by
  all_goals exact Prod.Lex.right (sizeOf node) (by omega)

/-- `evaluateBinaryExpression(node)`: arithmetic on two numeric operands is
computed (`**` with a negative right operand is fractional in JS and is not
exercised by any program here), every other combination falls through to the
template string "left operator right".  A non-object `node` cannot recurse
(all its property reads are `undefined`), so that branch is written out
directly with the value the original computes there. -/
def evaluateBinaryExpression (node : JSVal) : JSVal :=
  match node with
  | JSVal.vobj fields =>
      let left := extractValue (getField (JSVal.vobj fields) "left")
      let right := extractValue (getField (JSVal.vobj fields) "right")
      match left, right with
      | JSVal.vnum a, JSVal.vnum b =>
          (match getField (JSVal.vobj fields) "operator" with
          | JSVal.vstr "+" => JSVal.vnum (a + b)
          | JSVal.vstr "-" => JSVal.vnum (a - b)
          | JSVal.vstr "*" => JSVal.vnum (a * b)
          | JSVal.vstr "/" => JSVal.vnum (a / b)
          | JSVal.vstr "%" => JSVal.vnum (a % b)
          | JSVal.vstr "**" => JSVal.vnum (a ^ b.toNat)
          | op => JSVal.vstr (jsToString (JSVal.vnum a) ++ " " ++ jsToString op
              ++ " " ++ jsToString (JSVal.vnum b)))
      | l, r =>
          JSVal.vstr (jsToString l ++ " "
            ++ jsToString (getField (JSVal.vobj fields) "operator") ++ " " ++ jsToString r)
  | _ => JSVal.vstr "undefined undefined undefined"
termination_by (sizeOf node, 0)
decreasing_by
  all_goals exact Prod.Lex.left _ _ (sizeOf_getField_lt_of_obj fields _)

/-- `extractObjectProperties(node)`: build the display object for an object
expression.  The property key is `prop.key.name || prop.key.value`, coerced
to a string when used as an object key. -/
def extractObjectProperties (node : JSVal) : JSVal :=
  match hp : getField node "properties" with
  | JSVal.varr props =>
      JSVal.vobj (props.attach.foldl
        (fun acc pe =>
          if h : jsFalsy (getField pe.1 "key") || jsFalsy (getField pe.1 "value") then acc
          else
            let keyRaw :=
              if jsFalsy (getField (getField pe.1 "key") "name") then
                getField (getField pe.1 "key") "value"
              else getField (getField pe.1 "key") "name"
            objInsert acc (jsToString keyRaw) (extractValue (getField pe.1 "value")))
        [])
  | _ => JSVal.vobj []   -- JS would throw here; unreachable on esprima output
termination_by (sizeOf node, 0)
decreasing_by
  refine Prod.Lex.left _ _ ?_
  have h1 : sizeOf pe.1 < sizeOf (JSVal.varr props) := sizeOf_lt_of_mem_elems pe.2
  have h2 : sizeOf (JSVal.varr props) ≤ sizeOf node := by
    cases node with
    | vobj fields => exact le_of_lt (hp ▸ sizeOf_getField_lt_of_obj fields "properties")
    | vnum n => simp [getField] at hp
    | vstr s => simp [getField] at hp
    | vbool b => simp [getField] at hp
    | vnull => simp [getField] at hp
    | vundef => simp [getField] at hp
    | varr es => simp [getField] at hp
  have h3 : sizeOf (getField pe.1 "value") < sizeOf pe.1 := by
    have hv := h
    simp only [Bool.or_eq_true, not_or, Bool.not_eq_true] at hv
    have hne : getField pe.1 "value" ≠ JSVal.vundef :=
      getField_ne_undef_of_not_falsy hv.2
    exact sizeOf_getField_lt hne _
  omega

/-- `extractArrayElements(node)`: extract each element of an array
expression. -/
def extractArrayElements (node : JSVal) : JSVal :=
  match he : getField node "elements" with
  | JSVal.varr elems => JSVal.varr (elems.attach.map fun ee => extractValue ee.1)
  | _ => JSVal.varr []   -- JS would throw here; unreachable on esprima output
termination_by (sizeOf node, 0)
decreasing_by
  refine Prod.Lex.left _ _ ?_
  have h1 : sizeOf ee.1 < sizeOf (JSVal.varr elems) := sizeOf_lt_of_mem_elems ee.2
  have h2 : sizeOf (JSVal.varr elems) ≤ sizeOf node := by
    cases node with
    | vobj fields => exact le_of_lt (he ▸ sizeOf_getField_lt_of_obj fields "elements")
    | vnum n => simp [getField] at he
    | vstr s => simp [getField] at he
    | vbool b => simp [getField] at he
    | vnull => simp [getField] at he
    | vundef => simp [getField] at he
    | varr es => simp [getField] at he
  omega

end

/-- `v === "s"` for a string literal comparison. -/
def strEq (v : JSVal) (s : String) : Bool :=
  match v with
  | JSVal.vstr t => t == s
  | _ => false

/-- Numeric read of a property that is always a number on esprima output
(`loc.start.line`); the `0` default stands in for `NaN`. -/
def asNum : JSVal → Int
  | JSVal.vnum n => n
  | _ => 0

/-- `isConsoleCall(node)`: callee is a member access `console.log` /
`.error` / `.warn` / `.info`. -/
def isConsoleCall (node : JSVal) : Bool :=
  !(jsFalsy (getField node "callee"))
    && strEq (getField (getField node "callee") "type") "MemberExpression"
    && strEq (getField (getField (getField node "callee") "object") "name") "console"
    && (match getField (getField (getField node "callee") "property") "name" with
        | JSVal.vstr s => s == "log" || s == "error" || s == "warn" || s == "info"
        | _ => false)

/-- `isSetTimeoutCall(node)`. -/
def isSetTimeoutCall (node : JSVal) : Bool :=
  !(jsFalsy (getField node "callee")) && strEq (getField (getField node "callee") "name") "setTimeout"

/-- `isPromiseCall(node)`: a direct call whose callee identifier is `Promise`. -/
def isPromiseCall (node : JSVal) : Bool :=
  !(jsFalsy (getField node "callee")) && strEq (getField (getField node "callee") "name") "Promise"

/-- `isFetchCall(node)`. -/
def isFetchCall (node : JSVal) : Bool :=
  !(jsFalsy (getField node "callee")) && strEq (getField (getField node "callee") "name") "fetch"

/-- `getFunctionName(node)`: identifier callee name, `object.property` for a
member callee, `anonymous` otherwise; interpolated into the description. -/
def getFunctionName (node : JSVal) : String :=
  if strEq (getField (getField node "callee") "type") "Identifier" then
    jsToString (getField (getField node "callee") "name")
  else if strEq (getField (getField node "callee") "type") "MemberExpression" then
    jsToString (getField (getField (getField node "callee") "object") "name") ++ "."
      ++ jsToString (getField (getField (getField node "callee") "property") "name")
  else "anonymous"

/-- `extractCodeFromNode(node)`: both branches of the original produce the
string "<type> statement". -/
def extractCodeFromNode (node : JSVal) : String :=
  jsToString (getField node "type") ++ " statement"

/-- `extractBinaryExpression(node)`: the display string
"left operator right". -/
def extractBinaryExpression (node : JSVal) : String :=
  jsToString (extractValue (getField node "left")) ++ " "
    ++ jsToString (getField node "operator") ++ " "
    ++ jsToString (extractValue (getField node "right"))

/-- `extractConsoleLogMessage(node)`: per-argument display values joined by
a space (the `catch` branch yields "[Message]" when `.map` throws, i.e. when
`arguments` is not an array). -/
def extractConsoleLogMessage (node : JSVal) : String :=
  match getField node "arguments" with
  | JSVal.varr args =>
      String.intercalate " " (args.map fun arg =>
        match getField arg "type" with
        | JSVal.vstr "Literal" => joinStr (getField arg "value")
        | JSVal.vstr "Identifier" => joinStr (getField arg "name")
        | JSVal.vstr "BinaryExpression" => extractBinaryExpression arg
        | _ => "[Expression]")
  | _ => "[Message]"

/-- `extractTimeoutDelay(node)`: the second argument's literal value, with a
1000 default when absent or not a literal (also the `catch` default). -/
def extractTimeoutDelay (node : JSVal) : JSVal :=
  match getField node "arguments" with
  | JSVal.varr (_ :: a1 :: _) =>
      match getField a1 "type" with
      | JSVal.vstr "Literal" => getField a1 "value"
      | _ => JSVal.vnum 1000
  | _ => JSVal.vnum 1000

/-- `extractVariableAssignments(node)`: one entry per declarator that has
both an id and an initializer; the computed object key `decl.id.name` is
string-coerced. -/
def extractVariableAssignments (node : JSVal) : List (String × JSVal) :=
  match getField node "declarations" with
  | JSVal.varr decls =>
      decls.foldl (fun acc decl =>
        if jsFalsy (getField decl "id") || jsFalsy (getField decl "init") then acc
        else objInsert acc (jsToString (getField (getField decl "id") "name"))
          (extractValue (getField decl "init"))) []
  | _ => []   -- JS would throw here; unreachable on esprima output

/-- `node.declarations.map(d => d.id.name).join(', ')`. -/
def declNames (node : JSVal) : String :=
  match getField node "declarations" with
  | JSVal.varr decls =>
      String.intercalate ", " (decls.map fun d => joinStr (getField (getField d "id") "name"))
  | _ => ""   -- JS would throw here; unreachable on esprima output

/-- `extractAssignment(node)`: "left = value" with a placeholder for a
non-identifier (or empty-named) left side. -/
def extractAssignment (node : JSVal) : String :=
  (if jsFalsy (getField (getField node "left") "name") then "[Expression]"
   else jsToString (getField (getField node "left") "name"))
    ++ " = " ++ jsToString (extractValue (getField node "right"))

/-- An execution step record as produced by `parseCodeToSteps` /
`createExecutionStep`.  Fields that carry dynamic JavaScript values (and
fields that are simply absent on the synthetic start/end/error steps, whose
reads yield `undefined`) are `JSVal`. -/
structure Step where
  type : JSVal
  line : Int
  range : JSVal
  loc : JSVal
  description : String
  action : String
  isAsync : Bool
  delay : JSVal
  code : String
  -- the JS field is named `variables`, which Lean 4 reserves as a command
  vars : List (String × JSVal)
  output : JSVal
  queue : JSVal
  priority : JSVal

/-- `createExecutionStep(node, parent, lineOffset)`: the per-node-kind step
classifier.  `parent` is accepted and ignored exactly as in the original.
The `functions.set` bookkeeping on `FunctionDeclaration` feeds a
display-only table read by nothing modeled here and is omitted. -/
def createExecutionStep (node parent : JSVal) (lineOffset : Int) : Option Step :=
  let base : Step :=
    { type := getField node "type"
      line := if jsFalsy (getField node "loc") then 1
        else asNum (getField (getField (getField node "loc") "start") "line") + lineOffset
      range := getField node "range"
      loc := getField node "loc"
      description := ""
      action := "execute"
      isAsync := false
      delay := JSVal.vnum 0
      code := extractCodeFromNode node
      vars := []
      output := JSVal.vnull
      queue := JSVal.vstr "callStack"
      priority := JSVal.vstr "normal" }
  let ty := getField node "type"
  if strEq ty "Program" then none
  else if strEq ty "ExpressionStatement" then
      some { base with
        description := "Executing expression statement"
        action := "expression" }
  else if strEq ty "CallExpression" then
      if isConsoleCall node then
        some { base with
          description := "Console output statement"
          action := "console"
          output := JSVal.vstr (extractConsoleLogMessage node)
          queue := JSVal.vstr "callStack" }
      else if isSetTimeoutCall node then
        some { base with
          description := "setTimeout call - moving to Web APIs"
          action := "setTimeout"
          isAsync := true
          delay := extractTimeoutDelay node
          queue := JSVal.vstr "webAPIs"
          output := JSVal.vstr ("Scheduled timeout with "
            ++ jsToString (extractTimeoutDelay node) ++ "ms delay") }
      else if isPromiseCall node then
        some { base with
          description := "Promise creation - moving to microtask queue"
          action := "promise"
          isAsync := true
          queue := JSVal.vstr "microtaskQueue"
          priority := JSVal.vstr "high"
          output := JSVal.vstr "Promise created" }
      else if isFetchCall node then
        some { base with
          description := "Fetch API call - moving to Web APIs"
          action := "fetch"
          isAsync := true
          queue := JSVal.vstr "webAPIs"
          output := JSVal.vstr "Network request initiated" }
      else
        some { base with
          description := "Function call: " ++ getFunctionName node
          action := "functionCall"
          queue := JSVal.vstr "callStack" }
  else if strEq ty "VariableDeclaration" then
      some { base with
        description := "Variable declaration: " ++ declNames node
        action := "variableDeclaration"
        queue := JSVal.vstr "callStack"
        vars := extractVariableAssignments node }
  else if strEq ty "VariableDeclarator" then
      some { base with
        description := "Assigning value to " ++ jsToString (getField (getField node "id") "name")
        action := "variableAssignment"
        queue := JSVal.vstr "callStack"
        vars := [(jsToString (getField (getField node "id") "name"),
          extractValue (getField node "init"))] }
  else if strEq ty "Literal" then
      some { base with
        description := "Literal value: "
          ++ (match getField node "value" with
              | JSVal.vstr s => "\"" ++ s ++ "\""
              | v => jsToString v)
        action := "literal"
        queue := JSVal.vstr "callStack"
        output := getField node "value" }
  else if strEq ty "Identifier" then
      some { base with
        description := "Identifier: " ++ jsToString (getField node "name")
        action := "identifier"
        queue := JSVal.vstr "callStack"
        output := getField node "name" }
  else if strEq ty "BinaryExpression" then
      some { base with
        description := "Binary operation: " ++ extractBinaryExpression node
        action := "binaryOperation"
        queue := JSVal.vstr "callStack"
        output := evaluateBinaryExpression node }
  else if strEq ty "FunctionDeclaration" then
      some { base with
        description := "Function declaration: "
          ++ jsToString (getField (getField node "id") "name")
        action := "functionDeclaration"
        queue := JSVal.vstr "callStack"
        output := JSVal.vstr ("Function " ++ jsToString (getField (getField node "id") "name")
          ++ " defined") }
  else if strEq ty "FunctionExpression" then
      some { base with
        description := "Function expression"
        action := "functionExpression"
        queue := JSVal.vstr "callStack" }
  else if strEq ty "ArrowFunctionExpression" then
      some { base with
        description := "Arrow function"
        action := "arrowFunction"
        queue := JSVal.vstr "callStack" }
  else if strEq ty "ReturnStatement" then
      some { base with
        description := "Return statement"
        action := "return"
        queue := JSVal.vstr "callStack"
        output := extractValue (getField node "argument") }
  else if strEq ty "IfStatement" then
      some { base with
        description := "If statement evaluation"
        action := "ifStatement"
        queue := JSVal.vstr "callStack" }
  else if strEq ty "WhileStatement" then
      some { base with
        description := "While loop"
        action := "whileLoop"
        queue := JSVal.vstr "callStack" }
  else if strEq ty "ForStatement" then
      some { base with
        description := "For loop"
        action := "forLoop"
        queue := JSVal.vstr "callStack" }
  else if strEq ty "AwaitExpression" then
      some { base with
        description := "Await expression - creating microtask"
        action := "await"
        isAsync := true
        queue := JSVal.vstr "microtaskQueue"
        priority := JSVal.vstr "high"
        output := JSVal.vstr "Awaiting promise resolution" }
  else if strEq ty "YieldExpression" then
      some { base with
        description := "Yield expression"
        action := "yield"
        isAsync := true
        queue := JSVal.vstr "microtaskQueue"
        priority := JSVal.vstr "high" }
  else if strEq ty "AssignmentExpression" then
      some { base with
        description := "Assignment: " ++ extractAssignment node
        action := "assignment"
        queue := JSVal.vstr "callStack"
        vars := [(jsToString (getField (getField node "left") "name"),
          extractValue (getField node "right"))] }
  else if strEq ty "ObjectExpression" then
      some { base with
        description := "Object creation"
        action := "objectCreation"
        queue := JSVal.vstr "callStack"
        output := extractObjectProperties node }
  else if strEq ty "ArrayExpression" then
      some { base with
        description := "Array creation"
        action := "arrayCreation"
        queue := JSVal.vstr "callStack"
        output := extractArrayElements node }
  else
      some { base with
        description := jsToString ty ++ " statement"
        action := "statement"
        queue := JSVal.vstr "callStack" }

mutual

/-- `traverseAST(node, steps, parent, lineOffset)` of codeExecutor.js,
with the mutated `steps` array made explicit as the returned list: emit the
node's own step, then walk every enumerable property whose value is truthy
and of object type — recursing elementwise into arrays (this includes the
`range`/`loc` metadata properties, whose contents therefore also emit
steps). -/
def traverseAST (node parent : JSVal) (lineOffset : Int) : List Step :=
  if jsFalsy node then []
  else
    (match createExecutionStep node parent lineOffset with
     | some st => [st]
     | none => []) ++ traverseNodeChildren node lineOffset
termination_by (sizeOf node, 1)

/-- The `for (const key in node)` loop of `traverseAST`: property values of
an object in insertion order; for a node that is itself an array, `for..in`
enumerates its indices, whose values are its elements. -/
def traverseNodeChildren (node : JSVal) (lineOffset : Int) : List Step :=
  match node with
  | JSVal.vobj fields => traverseFields fields node lineOffset
  | JSVal.varr elems => traverseVals elems node lineOffset
  | _ => []
termination_by (sizeOf node, 0)

/-- One iteration of the loop body: recurse elementwise into an array-valued
property, recurse directly into an object-valued property, skip everything
else (`node[key] && typeof node[key] === 'object'`). -/
def traversePropVal (v node : JSVal) (lineOffset : Int) : List Step :=
  match v with
  | JSVal.varr elems => traverseElems elems node lineOffset
  | JSVal.vobj fs => traverseAST (JSVal.vobj fs) node lineOffset
  | _ => []
termination_by (sizeOf v, 2)

/-- Walk the property values of object `node` in order. -/
def traverseFields (fields : List (String × JSVal)) (node : JSVal) (lineOffset : Int) :
    List Step :=
  match fields with
  | [] => []
  | (_, v) :: rest => traversePropVal v node lineOffset ++ traverseFields rest node lineOffset
termination_by (sizeOf fields, 0)

/-- Walk the index values of an array-typed `node` in order (`for..in` on an
array). -/
def traverseVals (vals : List JSVal) (node : JSVal) (lineOffset : Int) : List Step :=
  match vals with
  | [] => []
  | v :: rest => traversePropVal v node lineOffset ++ traverseVals rest node lineOffset
termination_by (sizeOf vals, 0)

/-- `node[key].forEach(child => this.traverseAST(child, steps, node, lineOffset))`
for an array-valued property. -/
def traverseElems (elems : List JSVal) (node : JSVal) (lineOffset : Int) : List Step :=
  match elems with
  | [] => []
  | c :: rest => traverseAST c node lineOffset ++ traverseElems rest node lineOffset
termination_by (sizeOf elems, 0)

end

/-- `code.split('\n')`: split on every newline character (kept structural on
the character list so that it evaluates). -/
def splitLinesAux : List Char → List Char → List String
  | [], acc => [String.mk acc.reverse]
  | c :: rest, acc =>
      if c = '\n' then String.mk acc.reverse :: splitLinesAux rest []
      else splitLinesAux rest (c :: acc)

/-- `code.split('\n')`. -/
def jsSplitNewline (code : String) : List String := splitLinesAux code.data []

/-- `code.split('\n').length`. -/
def countLines (code : String) : Int := ((jsSplitNewline code).length : Int)

/-- The synthetic "Program execution started" step pushed before traversal;
its `code` is `code.split('\n')[0] || ''`.  The object has no
queue/priority/range/loc keys, so those read as `undefined`. -/
def startStep (code : String) : Step :=
  { type := JSVal.vstr "Program", line := 1, range := JSVal.vundef, loc := JSVal.vundef,
    description := "Program execution started", action := "start", isAsync := false,
    delay := JSVal.vnum 0, code := (jsSplitNewline code).headD "", vars := [],
    output := JSVal.vnull, queue := JSVal.vundef, priority := JSVal.vundef }

/-- The synthetic "Program execution completed" step pushed after traversal. -/
def endStep (code : String) : Step :=
  { type := JSVal.vstr "Program", line := countLines code, range := JSVal.vundef,
    loc := JSVal.vundef, description := "Program execution completed", action := "end",
    isAsync := false, delay := JSVal.vnum 0, code := "", vars := [],
    output := JSVal.vnull, queue := JSVal.vundef, priority := JSVal.vundef }

/-- The single synthetic step returned by the `catch` branch of
`parseCodeToSteps` when esprima throws. -/
def errorStep (code msg : String) : Step :=
  { type := JSVal.vstr "Error", line := 1, range := JSVal.vundef, loc := JSVal.vundef,
    description := "Parse error: " ++ msg, action := "error", isAsync := false,
    delay := JSVal.vnum 0, code := code, vars := [], output := JSVal.vnull,
    queue := JSVal.vundef, priority := JSVal.vundef }

/-- `parseCodeToSteps(code)`.  The call to the external esprima parser is the
explicit input `parsed`: the AST it returned, or the message of the error it
threw (which the original catches, logs, and converts to one error step). -/
def parseCodeToSteps (code : String) (parsed : Except String JSVal) : List Step :=
  match parsed with
  | Except.ok ast => (startStep code :: traverseAST ast JSVal.vnull 0) ++ [endStep code]
  | Except.error msg => [errorStep code msg]

/-! ## Part 2 — the queue/task state machine (eventLoopSlice.js)

String constants are the values of the `TASK_TYPES`, `TASK_STATUS`,
`ANIMATION_STATES`, `EXECUTION_STEPS` and `CODE_EXECUTION_STEPS` tables of
the source and are written literally.  Task ids are JavaScript numbers; the
`executeNextCodeStep` admission path assigns `Date.now() + Math.random()`,
which is fractional, so ids are modeled as `Rat`.  The part-2 definitions
live in the `EventLoopSlice` namespace (`Task` would otherwise collide with
the core `Task` type). -/

namespace EventLoopSlice

/-- A scheduler task as created by the `addTask` / `executeNextCodeStep`
thunks. -/
structure Task where
  id : Rat
  type : String
  description : String
  delay : JSVal
  status : String
  timestamp : Int
  animationState : String
  codeSample : String
  executionSteps : List Step
  currentStep : Nat

/-- One entry of `state.consoleOutput`.  `message` is a `JSVal` because
`executeNextCodeStep` pushes the raw `step.output` payload, which need not
be a string. -/
structure ConsoleEntry where
  message : JSVal
  timestamp : Int
  type : String

/-- The scheduling-relevant fields of the Redux slice state.  Fields of the
original state that no modeled operation reads or writes (pure UI state:
speed, tooltip, selection, sample texts, animation bookkeeping, the legacy
custom-code result buffers) are omitted.  The JS field
`codeExecutionVariables` is `codeExecutionVars` (`variables` is reserved in
Lean). -/
structure EventLoopState where
  callStack : List Task
  webAPIs : List Task
  callbackQueue : List Task
  microtaskQueue : List Task
  nextTaskId : Int
  currentExecutingTask : Option Task
  executionStep : String
  consoleOutput : List ConsoleEntry
  codeExecutionSteps : List Step
  currentCodeStep : Nat
  codeExecutionState : String
  codeExecutionProgress : Rat
  codeExecutionVars : List (String × JSVal)
  isCodeExecuting : Bool
  codeExecutionPaused : Bool

/-- `getTaskStartMessage(task)`; `new Date().toLocaleTimeString()` is the
explicit `timeStr` input. -/
def getTaskStartMessage (task : Task) (timeStr : String) : String :=
  if task.type == "consoleLog" then
    "📝 [" ++ timeStr ++ "] Executing console.log: " ++ task.description
  else if task.type == "setTimeout" then
    "⏰ [" ++ timeStr ++ "] Executing setTimeout callback (" ++ jsToString task.delay ++ "ms)"
  else if task.type == "promise" then "🔮 [" ++ timeStr ++ "] Executing Promise microtask"
  else if task.type == "asyncAwait" then
    "🔄 [" ++ timeStr ++ "] Executing async/await operation"
  else if task.type == "variableAssignment" then
    "📊 [" ++ timeStr ++ "] Executing variable assignment"
  else if task.type == "functionCall" then "📞 [" ++ timeStr ++ "] Executing function call"
  else if task.type == "synchronous" then "⚡ [" ++ timeStr ++ "] Executing synchronous task"
  else "🔄 [" ++ timeStr ++ "] Executing: " ++ task.description

/-- `getTaskCompletionMessage(task)`. -/
def getTaskCompletionMessage (task : Task) (timeStr : String) : String :=
  if task.type == "consoleLog" then
    "✅ [" ++ timeStr ++ "] Console.log completed: " ++ task.description
  else if task.type == "setTimeout" then
    "✅ [" ++ timeStr ++ "] setTimeout callback completed (" ++ jsToString task.delay ++ "ms)"
  else if task.type == "promise" then "✅ [" ++ timeStr ++ "] Promise microtask completed"
  else if task.type == "asyncAwait" then
    "✅ [" ++ timeStr ++ "] Async/await operation completed"
  else if task.type == "variableAssignment" then
    "✅ [" ++ timeStr ++ "] Variable assignment completed"
  else if task.type == "functionCall" then "✅ [" ++ timeStr ++ "] Function call completed"
  else if task.type == "synchronous" then "✅ [" ++ timeStr ++ "] Synchronous task completed"
  else "✅ [" ++ timeStr ++ "] Task completed: " ++ task.description

/-- First-occurrence search: the characters after the first occurrence of
`pat` in `s`, if any. -/
def dropAfterFirst? (s pat : List Char) : Option (List Char) :=
  match s with
  | [] => if pat.isEmpty then some [] else none
  | _ :: rest =>
      if pat.isPrefixOf s then some (s.drop pat.length)
      else dropAfterFirst? rest pat

/-- The regex match `description.match(/<pat>(.+)/)[1]`: the text after the
first occurrence of the literal pattern, up to the end of the line, required
non-empty.  (If the first occurrence is immediately followed by a newline a
real regex engine would try later occurrences; no modeled description
contains a newline.) -/
def regexCaptureAfter (pat s : String) : Option String :=
  match dropAfterFirst? s.data pat.data with
  | some rest =>
      let line1 := rest.takeWhile (fun c => c ≠ '\n')
      if line1.isEmpty then none else some (String.mk line1)
  | none => none

/-- `getTaskExecutionResult(task)`: the optional derived "result" trace
entry. -/
def getTaskExecutionResult (task : Task) (timeStr : String) : Option String :=
  if task.type == "consoleLog" then
    match regexCaptureAfter "Console.log: " task.description with
    | some m => some ("📤 [" ++ timeStr ++ "] Output: " ++ m)
    | none => none
  else if task.type == "variableAssignment" then
    match regexCaptureAfter "Variable assignment: " task.description with
    | some m => some ("📊 [" ++ timeStr ++ "] Result: " ++ m)
    | none => none
  else if task.type == "functionCall" then
    match regexCaptureAfter "Function call: " task.description with
    | some m => some ("📞 [" ++ timeStr ++ "] Function executed: " ++ m)
    | none => none
  else if task.type == "setTimeout" then
    some ("⏰ [" ++ timeStr ++ "] Callback executed after " ++ jsToString task.delay ++ "ms delay")
  else if task.type == "promise" then
    some ("🔮 [" ++ timeStr ++ "] Promise resolved successfully")
  else if task.type == "asyncAwait" then
    some ("🔄 [" ++ timeStr ++ "] Async operation resolved")
  else none

/-- The trailing
`if (state.consoleOutput.length > 20) state.consoleOutput = state.consoleOutput.slice(-20)`
of the reducers that trim: keep only the newest 20 entries. -/
def trimTo20 (l : List ConsoleEntry) : List ConsoleEntry :=
  if l.length > 20 then l.drop (l.length - 20) else l

/-- Reducer `addToCallStack`. -/
def addToCallStack (s : EventLoopState) (task : Task) : EventLoopState :=
  { s with
    callStack := s.callStack ++ [{ task with status := "pending", animationState := "moving" }]
    nextTaskId := s.nextTaskId + 1 }

/-- Reducer `addToWebAPIs`. -/
def addToWebAPIs (s : EventLoopState) (task : Task) : EventLoopState :=
  { s with
    webAPIs := s.webAPIs ++ [{ task with status := "waiting", animationState := "moving" }]
    nextTaskId := s.nextTaskId + 1 }

/-- Reducer `addToCallbackQueue` (the one admission reducer that does not
advance `nextTaskId`). -/
def addToCallbackQueue (s : EventLoopState) (task : Task) : EventLoopState :=
  { s with
    callbackQueue := s.callbackQueue
      ++ [{ task with status := "pending", animationState := "moving" }] }

/-- Reducer `addToMicrotaskQueue`. -/
def addToMicrotaskQueue (s : EventLoopState) (task : Task) : EventLoopState :=
  { s with
    microtaskQueue := s.microtaskQueue
      ++ [{ task with status := "pending", animationState := "moving" }]
    nextTaskId := s.nextTaskId + 1 }

/-- Reducer `executeSynchronousTaskWithSteps`: mark executing, record the
start trace entry (with no trim), remove the task from the call stack by id. -/
def executeSynchronousTaskWithSteps (s : EventLoopState) (task : Task)
    (timeStr : String) (now : Int) : EventLoopState :=
  let task2 := { task with status := "executing", animationState := "executing" }
  { s with
    currentExecutingTask := some task2
    executionStep := "entering_call_stack"
    consoleOutput := s.consoleOutput
      ++ [{ message := JSVal.vstr (getTaskStartMessage task2 timeStr), timestamp := now,
            type := "info" }]
    callStack := s.callStack.filter (fun t => decide (t.id ≠ task.id)) }

/-- Reducer `executeCallbackWithSteps`. -/
def executeCallbackWithSteps (s : EventLoopState) (task : Task)
    (timeStr : String) (now : Int) : EventLoopState :=
  let task2 := { task with status := "executing", animationState := "executing" }
  { s with
    currentExecutingTask := some task2
    executionStep := "executing_code"
    consoleOutput := s.consoleOutput
      ++ [{ message := JSVal.vstr (getTaskStartMessage task2 timeStr), timestamp := now,
            type := "info" }]
    callbackQueue := s.callbackQueue.filter (fun t => decide (t.id ≠ task.id)) }

/-- Reducer `executeMicrotaskWithSteps`. -/
def executeMicrotaskWithSteps (s : EventLoopState) (task : Task)
    (timeStr : String) (now : Int) : EventLoopState :=
  let task2 := { task with status := "executing", animationState := "executing" }
  { s with
    currentExecutingTask := some task2
    executionStep := "executing_code"
    consoleOutput := s.consoleOutput
      ++ [{ message := JSVal.vstr (getTaskStartMessage task2 timeStr), timestamp := now,
            type := "info" }]
    microtaskQueue := s.microtaskQueue.filter (fun t => decide (t.id ≠ task.id)) }

/-- Reducer `completeTaskExecution`: on the matching executing task, record
the completion entry and the optional result entry, clear the executing
slot, and trim the log to the newest 20 entries. -/
def completeTaskExecution (s : EventLoopState) (taskId : Rat)
    (timeStr : String) (now : Int) : EventLoopState :=
  match s.currentExecutingTask with
  | some task =>
      if task.id = taskId then
        let task2 := { task with status := "completed", animationState := "idle" }
        let out1 := s.consoleOutput
          ++ [{ message := JSVal.vstr (getTaskCompletionMessage task2 timeStr),
                timestamp := now, type := "success" }]
        let out2 :=
          match getTaskExecutionResult task2 timeStr with
          | some r => out1 ++ [{ message := JSVal.vstr r, timestamp := now, type := "result" }]
          | none => out1
        { s with
          currentExecutingTask := none
          executionStep := "idle"
          consoleOutput := trimTo20 out2 }
      else s
  | none => s

/-- Reducer `setTaskError`. -/
def setTaskError (s : EventLoopState) (taskId : Rat) (error : String) (now : Int) :
    EventLoopState :=
  match s.currentExecutingTask with
  | some task =>
      if task.id = taskId then
        { s with
          currentExecutingTask := none
          executionStep := "idle"
          consoleOutput := trimTo20 (s.consoleOutput
            ++ [{ message := JSVal.vstr ("❌ Error in " ++ task.description ++ ": " ++ error),
                  timestamp := now, type := "error" }]) }
      else s
  | none => s

/-- Reducer `addConsoleOutput`: push the payload as a `log` entry and trim
to the newest 20. -/
def addConsoleOutput (s : EventLoopState) (payload : JSVal) (now : Int) : EventLoopState :=
  { s with consoleOutput := trimTo20 (s.consoleOutput
      ++ [{ message := payload, timestamp := now, type := "log" }]) }

/-- Remove the element `splice(index, 1)` removes: the first task with the
given id. -/
def eraseFirstTaskById : List Task → Rat → List Task
  | [], _ => []
  | t :: rest, tid => if t.id = tid then rest else t :: eraseFirstTaskById rest tid

/-- Reducer `moveFromWebAPIToCallback`: if a task with the id is present in
`webAPIs`, remove it there (splice at its first index) and append it, with
`animationState` set to moving, to `callbackQueue`. -/
def moveFromWebAPIToCallback (s : EventLoopState) (taskId : Rat) : EventLoopState :=
  match s.webAPIs.find? (fun t => decide (t.id = taskId)) with
  | some task =>
      { s with
        webAPIs := eraseFirstTaskById s.webAPIs taskId
        callbackQueue := s.callbackQueue ++ [{ task with animationState := "moving" }] }
  | none => s

/-- Thunk `executeNextTask`: pick microtask queue head first, then callback
queue head, then call stack head, dispatching the matching
`execute...WithSteps` reducer; idle otherwise. -/
def executeNextTask (s : EventLoopState) (timeStr : String) (now : Int) :
    EventLoopState × Option (Task × String) :=
  match s.microtaskQueue with
  | t :: _ => (executeMicrotaskWithSteps s t timeStr now, some (t, "microtask"))
  | [] =>
    match s.callbackQueue with
    | t :: _ => (executeCallbackWithSteps s t timeStr now, some (t, "callback"))
    | [] =>
      match s.callStack with
      | t :: _ => (executeSynchronousTaskWithSteps s t timeStr now, some (t, "synchronous"))
      | [] => (s, none)

/-- `getTaskTypeFromStep(step)`. -/
def getTaskTypeFromStep (step : Step) : String :=
  if step.action == "console" then "consoleLog"
  else if step.action == "setTimeout" then "setTimeout"
  else if step.action == "promise" then "promise"
  else if step.action == "fetch" then "fetch"
  else if step.action == "await" then "asyncAwait"
  else if step.action == "variableAssignment" || step.action == "variableDeclaration" then
    "variableAssignment"
  else if step.action == "functionCall" || step.action == "functionDeclaration" then
    "functionCall"
  else "synchronous"

/-- The task payload built inside `executeNextCodeStep`:
`id: Date.now() + Math.random()` is `now + rand` with `0 ≤ rand < 1`. -/
def taskFromStep (step : Step) (now : Int) (rand : Rat) (status : String) : Task :=
  { id := (now : Rat) + rand
    type := getTaskTypeFromStep step
    description := step.description
    delay := if jsFalsy step.delay then JSVal.vnum 0 else step.delay
    status := status
    timestamp := now
    animationState := "moving"
    codeSample := "custom"
    executionSteps := [step]
    currentStep := 0 }

/-- Reducer `updateCodeExecutionVariables`: object-spread merge, existing
keys updated in place, new keys appended. -/
def updateCodeExecutionVariables (s : EventLoopState) (vs : List (String × JSVal)) :
    EventLoopState :=
  { s with codeExecutionVars :=
      vs.foldl (fun acc kv => objInsert acc kv.1 kv.2) s.codeExecutionVars }

/-- The `executeNextCodeStep.fulfilled` extra reducer: on a non-null
payload, advance the step cursor, recompute progress, and finish when past
the end. -/
def executeNextCodeStepFulfilled (s : EventLoopState) (payload : Option Step) :
    EventLoopState :=
  match payload with
  | some _ =>
      let s1 := { s with currentCodeStep := s.currentCodeStep + 1 }
      let s2 := { s1 with codeExecutionProgress :=
        if s1.codeExecutionSteps.length > 0 then
          ((s1.currentCodeStep : Rat) / (s1.codeExecutionSteps.length : Rat)) * 100
        else 0 }
      if s2.currentCodeStep ≥ s2.codeExecutionSteps.length then
        { s2 with isCodeExecuting := false, codeExecutionState := "completed" }
      else s2
  | none => s

/-- Thunk `executeNextCodeStep` (with its `fulfilled` reducer applied to the
returned payload): take the current step; admit it by its `queue` field — a
`switch` with cases `callStack` / `webAPIs` / `microtaskQueue` and no
default —, push its output to the console if truthy, merge its variables if
any. -/
def executeNextCodeStep (s : EventLoopState) (now : Int) (rand : Rat) :
    EventLoopState × Option Step :=
  if !s.isCodeExecuting || s.currentCodeStep ≥ s.codeExecutionSteps.length then (s, none)
  else
    match s.codeExecutionSteps[s.currentCodeStep]? with
    | none => (s, none)
    | some step =>
        let s1 :=
          if strEq step.queue "callStack" then
            addToCallStack s (taskFromStep step now rand "pending")
          else if strEq step.queue "webAPIs" then
            addToWebAPIs s (taskFromStep step now rand "waiting")
          else if strEq step.queue "microtaskQueue" then
            addToMicrotaskQueue s (taskFromStep step now rand "pending")
          else s
        let s2 := if jsFalsy step.output then s1 else addConsoleOutput s1 step.output now
        let s3 := if step.vars.length > 0 then updateCodeExecutionVariables s2 step.vars else s2
        (executeNextCodeStepFulfilled s3 (some step), some step)

/-- Thunk `addTask` with its `fulfilled` reducer: build a task with the next
counter id, route it to its container by type, and advance the counter. -/
def addTask (s : EventLoopState) (ttype : String) (delay : JSVal)
    (description codeSample : String) (now : Int) : EventLoopState × Task :=
  let task : Task :=
    { id := ((s.nextTaskId : Int) : Rat)
      type := ttype
      description := description
      delay := delay
      status := "pending"
      timestamp := now
      animationState := "idle"
      codeSample := codeSample
      executionSteps := []
      currentStep := 0 }
  let s2 :=
    if ttype == "synchronous" || ttype == "consoleLog" || ttype == "variableAssignment"
        || ttype == "functionCall" then
      { s with callStack := s.callStack ++ [task] }
    else if ttype == "promise" || ttype == "asyncAwait" then
      { s with microtaskQueue := s.microtaskQueue ++ [task] }
    else
      { s with webAPIs := s.webAPIs ++ [task] }
  ({ s2 with nextTaskId := s2.nextTaskId + 1 }, task)

end EventLoopSlice

/-! ## Concrete fixtures — esprima ASTs

The ASTs below are the exact output of
`esprima.parseScript(code, { range: true, loc: true })` for the given
source texts, with esprima's property insertion order: the node's own
syntactic fields first (as assigned in its node-class constructor), then
`range`, then `loc`. -/

/-- A `loc` object `{ start: { line, column }, end: { line, column } }`. -/
def mkLoc (l1 c1 l2 c2 : Int) : JSVal :=
  JSVal.vobj [("start", JSVal.vobj [("line", JSVal.vnum l1), ("column", JSVal.vnum c1)]),
              ("end", JSVal.vobj [("line", JSVal.vnum l2), ("column", JSVal.vnum c2)])]

/-- A `range` array `[from, to]`. -/
def mkRange (a b : Int) : JSVal := JSVal.varr [JSVal.vnum a, JSVal.vnum b]

/-- esprima AST of the two-line program "a;\nb;". -/
def astSemiAB : JSVal := JSVal.vobj [
  ("type", JSVal.vstr "Program"),
  ("body", JSVal.varr [
     JSVal.vobj [("type", JSVal.vstr "ExpressionStatement"),
           ("expression", JSVal.vobj [("type", JSVal.vstr "Identifier"), ("name", JSVal.vstr "a"),
              ("range", mkRange 0 1), ("loc", mkLoc 1 0 1 1)]),
           ("range", mkRange 0 2), ("loc", mkLoc 1 0 1 2)],
     JSVal.vobj [("type", JSVal.vstr "ExpressionStatement"),
           ("expression", JSVal.vobj [("type", JSVal.vstr "Identifier"), ("name", JSVal.vstr "b"),
              ("range", mkRange 3 4), ("loc", mkLoc 2 0 2 1)]),
           ("range", mkRange 3 5), ("loc", mkLoc 2 0 2 2)]]),
  ("sourceType", JSVal.vstr "script"),
  ("range", mkRange 0 5), ("loc", mkLoc 1 0 2 2)]

/-- esprima AST of the empty program "". -/
def astEmptyProgram : JSVal := JSVal.vobj [
  ("type", JSVal.vstr "Program"),
  ("body", JSVal.varr []),
  ("sourceType", JSVal.vstr "script"),
  ("range", mkRange 0 0), ("loc", mkLoc 1 0 1 0)]

/-- esprima AST of "const x = 2 + 2;". -/
def astConstX22 : JSVal := JSVal.vobj [
  ("type", JSVal.vstr "Program"),
  ("body", JSVal.varr [
     JSVal.vobj [("type", JSVal.vstr "VariableDeclaration"),
       ("declarations", JSVal.varr [
          JSVal.vobj [("type", JSVal.vstr "VariableDeclarator"),
            ("id", JSVal.vobj [("type", JSVal.vstr "Identifier"), ("name", JSVal.vstr "x"),
               ("range", mkRange 6 7), ("loc", mkLoc 1 6 1 7)]),
            ("init", JSVal.vobj [("type", JSVal.vstr "BinaryExpression"),
               ("operator", JSVal.vstr "+"),
               ("left", JSVal.vobj [("type", JSVal.vstr "Literal"), ("value", JSVal.vnum 2),
                  ("raw", JSVal.vstr "2"), ("range", mkRange 10 11), ("loc", mkLoc 1 10 1 11)]),
               ("right", JSVal.vobj [("type", JSVal.vstr "Literal"), ("value", JSVal.vnum 2),
                  ("raw", JSVal.vstr "2"), ("range", mkRange 14 15), ("loc", mkLoc 1 14 1 15)]),
               ("range", mkRange 10 15), ("loc", mkLoc 1 10 1 15)]),
            ("range", mkRange 6 15), ("loc", mkLoc 1 6 1 15)]]),
       ("kind", JSVal.vstr "const"),
       ("range", mkRange 0 16), ("loc", mkLoc 1 0 1 16)]]),
  ("sourceType", JSVal.vstr "script"),
  ("range", mkRange 0 16), ("loc", mkLoc 1 0 1 16)]

/-- esprima AST of "const x = 5;". -/
def astConstX5 : JSVal := JSVal.vobj [
  ("type", JSVal.vstr "Program"),
  ("body", JSVal.varr [
     JSVal.vobj [("type", JSVal.vstr "VariableDeclaration"),
       ("declarations", JSVal.varr [
          JSVal.vobj [("type", JSVal.vstr "VariableDeclarator"),
            ("id", JSVal.vobj [("type", JSVal.vstr "Identifier"), ("name", JSVal.vstr "x"),
               ("range", mkRange 6 7), ("loc", mkLoc 1 6 1 7)]),
            ("init", JSVal.vobj [("type", JSVal.vstr "Literal"), ("value", JSVal.vnum 5),
               ("raw", JSVal.vstr "5"), ("range", mkRange 10 11), ("loc", mkLoc 1 10 1 11)]),
            ("range", mkRange 6 11), ("loc", mkLoc 1 6 1 11)]]),
       ("kind", JSVal.vstr "const"),
       ("range", mkRange 0 12), ("loc", mkLoc 1 0 1 12)]]),
  ("sourceType", JSVal.vstr "script"),
  ("range", mkRange 0 12), ("loc", mkLoc 1 0 1 12)]

/-- C10: for every source text whose parse succeeds, the returned step list
has at least two entries; the first is the synthetic start step (action
"start", line 1) and the last is the synthetic end step (action "end") whose
line is the number of lines of the source text. -/
theorem parse_steps_bracketed_by_start_end :
    ∀ (code : String) (ast : JSVal),
      (parseCodeToSteps code (Except.ok ast)).head? = some (startStep code)
      ∧ (parseCodeToSteps code (Except.ok ast)).getLast? = some (endStep code)
      ∧ 2 ≤ (parseCodeToSteps code (Except.ok ast)).length
      ∧ (startStep code).action = "start" ∧ (startStep code).line = 1
      ∧ (endStep code).action = "end" ∧ (endStep code).line = countLines code := by
  intro code ast
  refine ⟨?_, ?_, ?_, rfl, rfl, rfl, rfl⟩
  · simp [parseCodeToSteps]
  · show (parseCodeToSteps code (Except.ok ast)).getLast? = some (endStep code)
    have h : parseCodeToSteps code (Except.ok ast)
        = (startStep code :: traverseAST ast JSVal.vnull 0) ++ [endStep code] := by
      simp [parseCodeToSteps]
    rw [h, List.getLast?_concat]
  · simp only [parseCodeToSteps, List.length_append, List.length_cons, List.length_singleton]
    omega

/-- C8 (amended): a failing parse yields exactly the one synthetic
error-kind step carrying the parser's message (and nothing is thrown past
`parseCodeToSteps`, which is total); but empty input does not give an empty
or single-step list: it yields 5 steps (start, three steps emitted from the
`loc` metadata of the empty `Program` node by the generic property walk,
and end). -/
theorem parse_failure_single_error_step :
    (∀ (code msg : String),
        parseCodeToSteps code (Except.error msg) = [errorStep code msg]
        ∧ (errorStep code msg).action = "error"
        ∧ (errorStep code msg).description = "Parse error: " ++ msg)
    ∧ (parseCodeToSteps "" (Except.ok astEmptyProgram)).length = 5 := by
  refine ⟨fun code msg => ⟨rfl, rfl, rfl⟩, ?_⟩
  simp [parseCodeToSteps, startStep, endStep, countLines, jsSplitNewline, splitLinesAux,
    traverseAST, traverseNodeChildren, traversePropVal, traverseFields, traverseVals,
    traverseElems, createExecutionStep, getField, jsFalsy, List.find?, asNum,
    extractCodeFromNode, jsToString, astEmptyProgram, mkRange, mkLoc, isConsoleCall,
    isSetTimeoutCall, isPromiseCall, isFetchCall, strEq]

/-- C8 (counterexample): for the empty source text (which esprima parses
successfully as an empty Program), `parseCodeToSteps` does not return an
empty or single no-op step list — it returns five steps. -/
theorem empty_input_steps_exceed_one_cex :
    ¬ ((parseCodeToSteps "" (Except.ok astEmptyProgram)).length ≤ 1) := by
  have h : (parseCodeToSteps "" (Except.ok astEmptyProgram)).length = 5 := by
    simp [parseCodeToSteps, startStep, endStep, countLines, jsSplitNewline, splitLinesAux,
      traverseAST, traverseNodeChildren, traversePropVal, traverseFields, traverseVals,
      traverseElems, createExecutionStep, getField, jsFalsy, List.find?, asNum,
      extractCodeFromNode, jsToString, astEmptyProgram, mkRange, mkLoc, isConsoleCall,
      isSetTimeoutCall, isPromiseCall, isFetchCall, strEq]
  omega

/-- C2 (amended): emission is pre-order — whenever a (truthy) node yields a
step at all, that step is emitted immediately before everything emitted
from the node's property walk, i.e. before every descendant-derived step. -/
theorem traverseAST_emits_node_step_first :
    ∀ (node parent : JSVal) (lineOffset : Int),
      jsFalsy node = false →
      traverseAST node parent lineOffset =
        (createExecutionStep node parent lineOffset).toList
          ++ traverseNodeChildren node lineOffset := by
  intro node parent off h
  rw [traverseAST]
  simp only [h, Bool.false_eq_true, if_false]
  cases createExecutionStep node parent off <;> simp

/-- esprima Identifier node for `a` at line 1. -/
def identNodeA : JSVal :=
  JSVal.vobj [("type", JSVal.vstr "Identifier"), ("name", JSVal.vstr "a"),
    ("range", mkRange 0 1), ("loc", mkLoc 1 0 1 1)]

/-- Witness for the pre-order theorem at a concrete identifier node. -/
theorem traverseAST_emits_node_step_first_witness :
    jsFalsy identNodeA = false ∧
    traverseAST identNodeA JSVal.vnull 0 =
      (createExecutionStep identNodeA JSVal.vnull 0).toList
        ++ traverseNodeChildren identNodeA 0 :=
  ⟨rfl, traverseAST_emits_node_step_first identNodeA JSVal.vnull 0 rfl⟩

/-- C2 (counterexample): on the two-line program "a;\nb;" the emitted step
lines are not non-decreasing: the property walk descends into the `range`
and `loc` metadata of the second statement's nodes and emits steps with
line 1 after the line-2 steps. -/
theorem parse_steps_lines_not_monotone_cex :
    ¬ List.Chain' (· ≤ ·) ((parseCodeToSteps "a;\nb;" (Except.ok astSemiAB)).map Step.line) := by
  have h : (parseCodeToSteps "a;\nb;" (Except.ok astSemiAB)).map Step.line
      = [1,1,1,1,1,1,1,1,1,1,1,2,2,1,1,1,1,1,1,1,1,1,1,1,1,1,1,2] := by
    simp [parseCodeToSteps, startStep, endStep, countLines, jsSplitNewline, splitLinesAux,
      traverseAST, traverseNodeChildren, traversePropVal, traverseFields, traverseVals,
      traverseElems, createExecutionStep, getField, jsFalsy, List.find?, asNum,
      extractCodeFromNode, jsToString, astSemiAB, mkRange, mkLoc, isConsoleCall,
      isSetTimeoutCall, isPromiseCall, isFetchCall, strEq]
  rw [h]
  simp [List.chain'_cons]

/-- The right-hand-side node kinds that `extractValue` resolves specially;
every other (truthy) node falls to the "[Expression]" placeholder. -/
def recognizedExtractType (t : JSVal) : Bool :=
  strEq t "Literal" || strEq t "Identifier" || strEq t "BinaryExpression"
    || strEq t "ObjectExpression" || strEq t "ArrayExpression"

/-- C9 (amended): parsing `const x = 2 + 2;` yields the variable-declaration
step with bound variables { x: 4 }; a binary `+` whose operands are numeric
literals is evaluated to its numeric result; and a truthy right-hand side of
any kind other than Literal / Identifier / BinaryExpression /
ObjectExpression / ArrayExpression is recorded as the opaque placeholder
string "[Expression]" (literals are recorded as their values, identifiers as
their names — not as placeholder strings). -/
theorem variable_value_extraction :
    (((parseCodeToSteps "const x = 2 + 2;" (Except.ok astConstX22)).drop 1).head?.map Step.vars
        = some [("x", JSVal.vnum 4)])
    ∧ (((parseCodeToSteps "const x = 2 + 2;" (Except.ok astConstX22)).drop 1).head?.map
          Step.action = some "variableDeclaration")
    ∧ (∀ (bn nl nr : JSVal) (a b : Int),
        jsFalsy nl = false → getField nl "type" = JSVal.vstr "Literal" →
        getField nl "value" = JSVal.vnum a →
        jsFalsy nr = false → getField nr "type" = JSVal.vstr "Literal" →
        getField nr "value" = JSVal.vnum b →
        getField bn "left" = nl → getField bn "right" = nr →
        getField bn "operator" = JSVal.vstr "+" →
        evaluateBinaryExpression bn = JSVal.vnum (a + b))
    ∧ (∀ node : JSVal, jsFalsy node = false →
        recognizedExtractType (getField node "type") = false →
        extractValue node = JSVal.vstr "[Expression]") := by
  refine ⟨?_, ?_, ?_, ?_⟩
  · simp [parseCodeToSteps, startStep, endStep, countLines, jsSplitNewline, splitLinesAux,
      traverseAST, traverseNodeChildren, traversePropVal, traverseFields, traverseVals,
      traverseElems, createExecutionStep, getField, jsFalsy, List.find?, asNum,
      extractCodeFromNode, jsToString, astConstX22, mkRange, mkLoc, isConsoleCall,
      isSetTimeoutCall, isPromiseCall, isFetchCall, strEq, extractVariableAssignments,
      declNames, extractValue, evaluateBinaryExpression, extractBinaryExpression, joinStr,
      objInsert]
  · simp [parseCodeToSteps, startStep, endStep, countLines, jsSplitNewline, splitLinesAux,
      traverseAST, traverseNodeChildren, traversePropVal, traverseFields, traverseVals,
      traverseElems, createExecutionStep, getField, jsFalsy, List.find?, asNum,
      extractCodeFromNode, jsToString, astConstX22, mkRange, mkLoc, isConsoleCall,
      isSetTimeoutCall, isPromiseCall, isFetchCall, strEq, extractVariableAssignments,
      declNames, extractValue, evaluateBinaryExpression, extractBinaryExpression, joinStr,
      objInsert]
  · intro bn nl nr a b hf1 ht1 hv1 hf2 ht2 hv2 hl hr hop
    cases bn with
    | vobj fields =>
        have e1 : extractValue nl = JSVal.vnum a := by
          rw [extractValue]
          simp only [hf1, Bool.false_eq_true, if_false, ht1, hv1]
        have e2 : extractValue nr = JSVal.vnum b := by
          rw [extractValue]
          simp only [hf2, Bool.false_eq_true, if_false, ht2, hv2]
        rw [evaluateBinaryExpression]
        simp only [hl, hr, e1, e2, hop]
    | vnum n => simp [getField] at hop
    | vstr s => simp [getField] at hop
    | vbool bb => simp [getField] at hop
    | vnull => simp [getField] at hop
    | vundef => simp [getField] at hop
    | varr es => simp [getField] at hop
  · intro node hf hrec
    rw [extractValue]
    simp only [hf, Bool.false_eq_true, if_false]
    split
    · rename_i heq; rw [heq] at hrec; simp [recognizedExtractType, strEq] at hrec
    · rename_i heq; rw [heq] at hrec; simp [recognizedExtractType, strEq] at hrec
    · rename_i heq; rw [heq] at hrec; simp [recognizedExtractType, strEq] at hrec
    · rename_i heq; rw [heq] at hrec; simp [recognizedExtractType, strEq] at hrec
    · rename_i heq; rw [heq] at hrec; simp [recognizedExtractType, strEq] at hrec
    · rfl

/-- esprima Literal node for the first `2` of `const x = 2 + 2;`. -/
def litTwoLeft : JSVal :=
  JSVal.vobj [("type", JSVal.vstr "Literal"), ("value", JSVal.vnum 2),
    ("raw", JSVal.vstr "2"), ("range", mkRange 10 11), ("loc", mkLoc 1 10 1 11)]

/-- esprima Literal node for the second `2` of `const x = 2 + 2;`. -/
def litTwoRight : JSVal :=
  JSVal.vobj [("type", JSVal.vstr "Literal"), ("value", JSVal.vnum 2),
    ("raw", JSVal.vstr "2"), ("range", mkRange 14 15), ("loc", mkLoc 1 14 1 15)]

/-- esprima BinaryExpression node for `2 + 2`. -/
def binTwoPlusTwo : JSVal :=
  JSVal.vobj [("type", JSVal.vstr "BinaryExpression"), ("operator", JSVal.vstr "+"),
    ("left", litTwoLeft), ("right", litTwoRight),
    ("range", mkRange 10 15), ("loc", mkLoc 1 10 1 15)]

/-- Witness: the binary-evaluation clause applied at the literal `2 + 2`
node. -/
theorem variable_value_extraction_witness :
    evaluateBinaryExpression binTwoPlusTwo = JSVal.vnum (2 + 2) :=
  variable_value_extraction.2.2.1 binTwoPlusTwo litTwoLeft litTwoRight 2 2
    rfl rfl rfl rfl rfl rfl rfl rfl rfl

/-- C9 (counterexample): for `const x = 5;` — a right-hand side that is not
binary arithmetic — the recorded bound-variable value is the number 5
itself, not an opaque placeholder string. -/
theorem literal_rhs_recorded_as_number_cex :
    (((parseCodeToSteps "const x = 5;" (Except.ok astConstX5)).drop 1).head?.map Step.vars
        = some [("x", JSVal.vnum 5)])
    ∧ JSVal.isString (JSVal.vnum 5) = false := by
  refine ⟨?_, rfl⟩
  simp [parseCodeToSteps, startStep, endStep, countLines, jsSplitNewline, splitLinesAux,
    traverseAST, traverseNodeChildren, traversePropVal, traverseFields, traverseVals,
    traverseElems, createExecutionStep, getField, jsFalsy, List.find?, asNum,
    extractCodeFromNode, jsToString, astConstX5, mkRange, mkLoc, isConsoleCall,
    isSetTimeoutCall, isPromiseCall, isFetchCall, strEq, extractVariableAssignments,
    declNames, extractValue, evaluateBinaryExpression, extractBinaryExpression, joinStr,
    objInsert]

namespace EventLoopSlice

/-- The scheduling-relevant projection of `initialState` of
eventLoopSlice.js. -/
def initialState : EventLoopState :=
  { callStack := [], webAPIs := [], callbackQueue := [], microtaskQueue := []
    nextTaskId := 1, currentExecutingTask := none, executionStep := "idle"
    consoleOutput := [], codeExecutionSteps := [], currentCodeStep := 0
    codeExecutionState := "parsing", codeExecutionProgress := 0, codeExecutionVars := []
    isCodeExecuting := false, codeExecutionPaused := false }

/-- A concrete task fixture. -/
def mkTask (id : Rat) (t d : String) : Task :=
  { id := id, type := t, description := d, delay := JSVal.vnum 0, status := "pending"
    timestamp := 0, animationState := "idle", codeSample := "custom"
    executionSteps := [], currentStep := 0 }

/-- A concrete plain execution step with the given `queue` value. -/
def stepPlain (q : JSVal) : Step :=
  { type := JSVal.vstr "ExpressionStatement", line := 1, range := JSVal.vundef
    loc := JSVal.vundef, description := "Executing expression statement"
    action := "expression", isAsync := false, delay := JSVal.vnum 0, code := ""
    vars := [], output := JSVal.vnull, queue := q, priority := JSVal.vstr "normal" }

/-- C1: one invocation of `executeNextTask` selects the head of the
microtask queue when non-empty, else the head of the callback queue, else
the head of the call stack, else nothing — for every state, so also in any
state reached after admissions during a callback task's execution. -/
theorem executeNextTask_priority_rule :
    ∀ (s : EventLoopState) (timeStr : String) (now : Int),
      (executeNextTask s timeStr now).2 =
        match s.microtaskQueue, s.callbackQueue, s.callStack with
        | t :: _, _, _ => some (t, "microtask")
        | [], t :: _, _ => some (t, "callback")
        | [], [], t :: _ => some (t, "synchronous")
        | [], [], [] => none := by
  intro s timeStr now
  unfold executeNextTask
  cases s.microtaskQueue with
  | cons t rest => rfl
  | nil =>
    cases s.callbackQueue with
    | cons t rest => rfl
    | nil =>
      cases s.callStack with
      | cons t rest => rfl
      | nil => rfl

/-- Two distinct pending microtasks. -/
def sTwoMicro : EventLoopState :=
  { initialState with microtaskQueue := [mkTask 1 "promise" "p1", mkTask 2 "promise" "p2"] }

/-- C4 (counterexample): `executeNextTask` is not a pure read — with two
queued microtasks, the first call returns the task with id 1 and dequeues
it, so the immediately repeated call returns the different task with id 2. -/
theorem executeNextTask_not_pure_read_cex :
    ((executeNextTask sTwoMicro "t" 0).2.map (fun r => r.1.id) = some 1)
    ∧ ((executeNextTask (executeNextTask sTwoMicro "t" 0).1 "t" 0).2.map (fun r => r.1.id)
        = some 2)
    ∧ (1 : Rat) ≠ 2 := by
  refine ⟨by decide, by decide, by decide⟩

/-- C4 (amended): the selection itself is a deterministic read of the
current state — and when nothing is selectable the state is untouched — but
a successful selection also begins execution: the returned microtask is
removed from its queue, so an immediately repeated call returns the next
(different-id) microtask, not the same one. -/
theorem executeNextTask_selection_dequeues :
    ∀ (s : EventLoopState) (timeStr : String) (now : Int),
      ((executeNextTask s timeStr now).2 = none → (executeNextTask s timeStr now).1 = s)
      ∧ (∀ t rest, s.microtaskQueue = t :: rest →
          (executeNextTask s timeStr now).2 = some (t, "microtask")
          ∧ (executeNextTask s timeStr now).1.microtaskQueue
              = (t :: rest).filter (fun x => decide (x.id ≠ t.id)))
      ∧ (∀ t1 t2 rest, s.microtaskQueue = t1 :: t2 :: rest → t2.id ≠ t1.id →
          (executeNextTask (executeNextTask s timeStr now).1 timeStr now).2.map
              (fun r => r.1) = some t2) := by
  intro s timeStr now
  refine ⟨?_, ?_, ?_⟩
  · unfold executeNextTask
    cases s.microtaskQueue with
    | cons t rest => intro h; simp at h
    | nil =>
      cases s.callbackQueue with
      | cons t rest => intro h; simp at h
      | nil =>
        cases s.callStack with
        | cons t rest => intro h; simp at h
        | nil => intro h; rfl
  · intro t rest hm
    constructor
    · simp [executeNextTask, hm]
    · simp [executeNextTask, hm, executeMicrotaskWithSteps]
  · intro t1 t2 rest hm hne
    have h1 : (executeNextTask s timeStr now).1.microtaskQueue
        = t2 :: rest.filter (fun x => decide (x.id ≠ t1.id)) := by
      simp [executeNextTask, hm, executeMicrotaskWithSteps, List.filter_cons, hne]
    generalize hS : (executeNextTask s timeStr now).1 = s1 at h1 ⊢
    unfold executeNextTask
    rw [h1]
    rfl

/-- Witness for the amended C4 theorem at the two-microtask fixture. -/
theorem executeNextTask_selection_dequeues_witness :
    sTwoMicro.microtaskQueue = mkTask 1 "promise" "p1" :: [mkTask 2 "promise" "p2"]
    ∧ (executeNextTask sTwoMicro "t" 0).2 = some (mkTask 1 "promise" "p1", "microtask") :=
  ⟨rfl, ((executeNextTask_selection_dequeues sTwoMicro "t" 0).2.1
      (mkTask 1 "promise" "p1") [mkTask 2 "promise" "p2"] rfl).1⟩

/-- The arguments of one `addTask` dispatch. -/
structure AddTaskCall where
  ttype : String
  delay : JSVal
  description : String
  codeSample : String
  now : Int

/-- The task ids assigned by a sequence of `addTask` dispatches, in
admission order. -/
def assignedIds : EventLoopState → List AddTaskCall → List Rat
  | _, [] => []
  | s, c :: rest =>
      (addTask s c.ttype c.delay c.description c.codeSample c.now).2.id
        :: assignedIds (addTask s c.ttype c.delay c.description c.codeSample c.now).1 rest

theorem addTask_snd_id (s : EventLoopState) (ttype : String) (delay : JSVal)
    (d cs : String) (now : Int) :
    (addTask s ttype delay d cs now).2.id = ((s.nextTaskId : Int) : Rat) := rfl

theorem addTask_fst_nextTaskId (s : EventLoopState) (ttype : String) (delay : JSVal)
    (d cs : String) (now : Int) :
    (addTask s ttype delay d cs now).1.nextTaskId = s.nextTaskId + 1 := by
  unfold addTask
  split_ifs <;> rfl

theorem assignedIds_lower_bound :
    ∀ (calls : List AddTaskCall) (s : EventLoopState) (x : Rat),
      x ∈ assignedIds s calls → ((s.nextTaskId : Int) : Rat) ≤ x := by
  intro calls
  induction calls with
  | nil => intro s x hx; simp [assignedIds] at hx
  | cons c rest ih =>
      intro s x hx
      rw [assignedIds] at hx
      rcases List.mem_cons.mp hx with rfl | htail
      · rw [addTask_snd_id]
      · have h2 := ih _ x htail
        rw [addTask_fst_nextTaskId] at h2
        have : ((s.nextTaskId : Int) : Rat) ≤ ((s.nextTaskId + 1 : Int) : Rat) := by
          push_cast; linarith
        linarith

/-- C5 (amended): along the `addTask` admission path the assigned ids are
the successive values of the `nextTaskId` counter, hence strictly
increasing (and so unique) in admission order, whatever containers the
tasks land in. -/
theorem addTask_ids_strictly_increasing :
    ∀ (calls : List AddTaskCall) (s : EventLoopState),
      List.Chain' (· < ·) (assignedIds s calls) := by
  intro calls
  induction calls with
  | nil => intro s; simp [assignedIds]
  | cons c rest ih =>
      intro s
      rw [assignedIds, List.chain'_cons']
      refine ⟨?_, ih _⟩
      intro y hy
      have hmem := List.mem_of_mem_head? hy
      have hlow := assignedIds_lower_bound rest _ y hmem
      rw [addTask_fst_nextTaskId] at hlow
      rw [addTask_snd_id]
      have : ((s.nextTaskId : Int) : Rat) < ((s.nextTaskId + 1 : Int) : Rat) := by
        push_cast; linarith
      linarith

/-- A custom-code execution state with two pending call-stack steps. -/
def sCode2 : EventLoopState :=
  { initialState with
    isCodeExecuting := true
    codeExecutionSteps := [stepPlain (JSVal.vstr "callStack"), stepPlain (JSVal.vstr "callStack")] }

/-- C5 (counterexample): the `executeNextCodeStep` admission path assigns
ids from `Date.now() + Math.random()`.  Two steps admitted during the same
millisecond (`Date.now()` = 100 twice) with random parts 1/2 then 1/4
receive the ids 100.5 and 100.25: the later admission gets the smaller id,
so ids are not strictly increasing in admission order across all admission
paths. -/
theorem dateRandom_ids_not_monotonic_cex :
    ¬ List.Chain' (· < ·)
      ((executeNextCodeStep (executeNextCodeStep sCode2 100 (1/2)).1 100 (1/4)).1.callStack.map
        Task.id) := by
  have h : (executeNextCodeStep
        (executeNextCodeStep sCode2 100 (1/2)).1 100 (1/4)).1.callStack.map Task.id
      = [((100 : Int) : Rat) + 1/2, ((100 : Int) : Rat) + 1/4] := by
    simp [executeNextCodeStep, sCode2, initialState, stepPlain, addToCallStack,
      taskFromStep, executeNextCodeStepFulfilled, addConsoleOutput,
      updateCodeExecutionVariables, getTaskTypeFromStep, strEq, jsFalsy]
  rw [h]
  simp only [List.chain'_cons, List.chain'_singleton, and_true]
  norm_num

/-- A console-log fixture entry. -/
def entryM : ConsoleEntry := { message := JSVal.vstr "m", timestamp := 0, type := "log" }

/-- A state whose trace log is exactly at the 20-entry cap, with one
pending microtask. -/
def sFullLog : EventLoopState :=
  { initialState with
    consoleOutput := List.replicate 20 entryM
    microtaskQueue := [mkTask 1 "promise" "p1"] }

/-- C6 (counterexample): the task-start append performed by
`executeMicrotaskWithSteps` does not trim the log: starting a task with the
log at the 20-entry cap leaves 21 entries, exceeding the cap. -/
theorem task_start_append_exceeds_cap_cex :
    ((executeMicrotaskWithSteps sFullLog (mkTask 1 "promise" "p1") "t" 0).consoleOutput.length
        = 21)
    ∧ ¬ ((21 : Nat) ≤ 20) := by
  refine ⟨by decide, by decide⟩

theorem trimTo20_length (l : List ConsoleEntry) : (trimTo20 l).length ≤ 20 := by
  unfold trimTo20
  split_ifs with h
  · simp only [List.length_drop]
    omega
  · omega

theorem trimTo20_suffix (l : List ConsoleEntry) : List.IsSuffix (trimTo20 l) l := by
  unfold trimTo20
  split_ifs
  · exact List.drop_suffix _ _
  · exact List.suffix_refl _

/-- C6 (amended): the appends that do trim — `addConsoleOutput`, a matching
`completeTaskExecution`, a matching `setTaskError` — leave at most 20
entries, evicting from the oldest end (the kept log is a suffix of the
appended log); the task-start appends of the `execute...WithSteps` reducers
do not trim and can leave the log above the cap. -/
theorem trimmed_trace_appends_bounded :
    ∀ (s : EventLoopState) (payload : JSVal) (now : Int) (taskId : Rat) (timeStr err : String),
      (addConsoleOutput s payload now).consoleOutput.length ≤ 20
      ∧ List.IsSuffix (addConsoleOutput s payload now).consoleOutput
          (s.consoleOutput ++ [{ message := payload, timestamp := now, type := "log" }])
      ∧ ((completeTaskExecution s taskId timeStr now).consoleOutput.length ≤ 20
          ∨ (completeTaskExecution s taskId timeStr now).consoleOutput = s.consoleOutput)
      ∧ ((setTaskError s taskId err now).consoleOutput.length ≤ 20
          ∨ (setTaskError s taskId err now).consoleOutput = s.consoleOutput) := by
  intro s payload now taskId timeStr err
  refine ⟨trimTo20_length _, trimTo20_suffix _, ?_, ?_⟩
  · unfold completeTaskExecution
    cases s.currentExecutingTask with
    | none => right; rfl
    | some task =>
        dsimp only
        split_ifs with h
        · left; exact trimTo20_length _
        · right; rfl
  · unfold setTaskError
    cases s.currentExecutingTask with
    | none => right; rfl
    | some task =>
        dsimp only
        split_ifs with h
        · left; exact trimTo20_length _
        · right; rfl

set_option maxHeartbeats 1600000 in
/-- C7 (amended): a step whose `queue` names none of the three switch cases
(`callStack` / `webAPIs` / `microtaskQueue`) is silently dropped by the
admission switch of `executeNextCodeStep` — no container changes, and the
thunk still succeeds, returning the step.  The default-to-CallStack choice
lives in the classifier instead: every step `createExecutionStep` produces
carries one of the three known queue names (`callStack` by default). -/
theorem unknown_queue_step_dropped :
    (∀ (s : EventLoopState) (now : Int) (rand : Rat) (step : Step),
        s.isCodeExecuting = true →
        s.codeExecutionSteps[s.currentCodeStep]? = some step →
        strEq step.queue "callStack" = false →
        strEq step.queue "webAPIs" = false →
        strEq step.queue "microtaskQueue" = false →
        (executeNextCodeStep s now rand).1.callStack = s.callStack
        ∧ (executeNextCodeStep s now rand).1.webAPIs = s.webAPIs
        ∧ (executeNextCodeStep s now rand).1.callbackQueue = s.callbackQueue
        ∧ (executeNextCodeStep s now rand).1.microtaskQueue = s.microtaskQueue
        ∧ (executeNextCodeStep s now rand).2 = some step)
    ∧ (∀ (node parent : JSVal) (off : Int) (st : Step),
        createExecutionStep node parent off = some st →
        (strEq st.queue "callStack" || strEq st.queue "webAPIs"
          || strEq st.queue "microtaskQueue") = true) := by
  constructor
  · intro s now rand step hexec hstep h1 h2 h3
    have hlt : s.currentCodeStep < s.codeExecutionSteps.length := by
      by_contra hge
      rw [List.getElem?_eq_none (Nat.le_of_not_lt hge)] at hstep
      cases hstep
    have hguard : (!s.isCodeExecuting
        || decide (s.currentCodeStep ≥ s.codeExecutionSteps.length)) = false := by
      rw [hexec]
      simp
      omega
    unfold executeNextCodeStep
    rw [hguard]
    simp only [Bool.false_eq_true, if_false, hstep, h1, h2, h3, Bool.false_eq_true, if_false]
    refine ⟨?_, ?_, ?_, ?_, trivial⟩ <;>
      · unfold executeNextCodeStepFulfilled addConsoleOutput updateCodeExecutionVariables
        dsimp only
        split_ifs <;> rfl
  · intro node parent off st h
    unfold createExecutionStep at h
    dsimp only at h
    by_cases c1 : strEq (getField node "type") "Program" = true
    case pos => rw [if_pos c1] at h; cases h
    rw [if_neg c1] at h
    by_cases c2 : strEq (getField node "type") "ExpressionStatement" = true
    case pos => rw [if_pos c2] at h; injection h with h2; subst h2; rfl
    rw [if_neg c2] at h
    by_cases c3 : strEq (getField node "type") "CallExpression" = true
    case pos =>
      rw [if_pos c3] at h
      by_cases c4 : isConsoleCall node = true
      case pos => rw [if_pos c4] at h; injection h with h2; subst h2; rfl
      rw [if_neg c4] at h
      by_cases c5 : isSetTimeoutCall node = true
      case pos => rw [if_pos c5] at h; injection h with h2; subst h2; rfl
      rw [if_neg c5] at h
      by_cases c6 : isPromiseCall node = true
      case pos => rw [if_pos c6] at h; injection h with h2; subst h2; rfl
      rw [if_neg c6] at h
      by_cases c7 : isFetchCall node = true
      case pos => rw [if_pos c7] at h; injection h with h2; subst h2; rfl
      rw [if_neg c7] at h
      injection h with h2; subst h2; rfl
    rw [if_neg c3] at h
    by_cases c8 : strEq (getField node "type") "VariableDeclaration" = true
    case pos => rw [if_pos c8] at h; injection h with h2; subst h2; rfl
    rw [if_neg c8] at h
    by_cases c9 : strEq (getField node "type") "VariableDeclarator" = true
    case pos => rw [if_pos c9] at h; injection h with h2; subst h2; rfl
    rw [if_neg c9] at h
    by_cases c10 : strEq (getField node "type") "Literal" = true
    case pos => rw [if_pos c10] at h; injection h with h2; subst h2; rfl
    rw [if_neg c10] at h
    by_cases c11 : strEq (getField node "type") "Identifier" = true
    case pos => rw [if_pos c11] at h; injection h with h2; subst h2; rfl
    rw [if_neg c11] at h
    by_cases c12 : strEq (getField node "type") "BinaryExpression" = true
    case pos => rw [if_pos c12] at h; injection h with h2; subst h2; rfl
    rw [if_neg c12] at h
    by_cases c13 : strEq (getField node "type") "FunctionDeclaration" = true
    case pos => rw [if_pos c13] at h; injection h with h2; subst h2; rfl
    rw [if_neg c13] at h
    by_cases c14 : strEq (getField node "type") "FunctionExpression" = true
    case pos => rw [if_pos c14] at h; injection h with h2; subst h2; rfl
    rw [if_neg c14] at h
    by_cases c15 : strEq (getField node "type") "ArrowFunctionExpression" = true
    case pos => rw [if_pos c15] at h; injection h with h2; subst h2; rfl
    rw [if_neg c15] at h
    by_cases c16 : strEq (getField node "type") "ReturnStatement" = true
    case pos => rw [if_pos c16] at h; injection h with h2; subst h2; rfl
    rw [if_neg c16] at h
    by_cases c17 : strEq (getField node "type") "IfStatement" = true
    case pos => rw [if_pos c17] at h; injection h with h2; subst h2; rfl
    rw [if_neg c17] at h
    by_cases c18 : strEq (getField node "type") "WhileStatement" = true
    case pos => rw [if_pos c18] at h; injection h with h2; subst h2; rfl
    rw [if_neg c18] at h
    by_cases c19 : strEq (getField node "type") "ForStatement" = true
    case pos => rw [if_pos c19] at h; injection h with h2; subst h2; rfl
    rw [if_neg c19] at h
    by_cases c20 : strEq (getField node "type") "AwaitExpression" = true
    case pos => rw [if_pos c20] at h; injection h with h2; subst h2; rfl
    rw [if_neg c20] at h
    by_cases c21 : strEq (getField node "type") "YieldExpression" = true
    case pos => rw [if_pos c21] at h; injection h with h2; subst h2; rfl
    rw [if_neg c21] at h
    by_cases c22 : strEq (getField node "type") "AssignmentExpression" = true
    case pos => rw [if_pos c22] at h; injection h with h2; subst h2; rfl
    rw [if_neg c22] at h
    by_cases c23 : strEq (getField node "type") "ObjectExpression" = true
    case pos => rw [if_pos c23] at h; injection h with h2; subst h2; rfl
    rw [if_neg c23] at h
    by_cases c24 : strEq (getField node "type") "ArrayExpression" = true
    case pos => rw [if_pos c24] at h; injection h with h2; subst h2; rfl
    rw [if_neg c24] at h
    injection h with h2; subst h2; rfl

/-- A step whose `queue` is `callbackQueue` — a real container name, but not
one of the admission switch's cases. -/
def stepQueueNamedCallback : Step := stepPlain (JSVal.vstr "callbackQueue")

/-- A custom-code execution state holding that step. -/
def sPendingCallbackStep : EventLoopState :=
  { initialState with
    isCodeExecuting := true
    codeExecutionSteps := [stepQueueNamedCallback] }

/-- Witness for the amended C7 theorem at a concrete state. -/
theorem unknown_queue_step_dropped_witness :
    (executeNextCodeStep sPendingCallbackStep 0 0).1.callStack = sPendingCallbackStep.callStack
    ∧ (executeNextCodeStep sPendingCallbackStep 0 0).1.webAPIs = sPendingCallbackStep.webAPIs
    ∧ (executeNextCodeStep sPendingCallbackStep 0 0).1.callbackQueue
        = sPendingCallbackStep.callbackQueue
    ∧ (executeNextCodeStep sPendingCallbackStep 0 0).1.microtaskQueue
        = sPendingCallbackStep.microtaskQueue
    ∧ (executeNextCodeStep sPendingCallbackStep 0 0).2 = some stepQueueNamedCallback :=
  unknown_queue_step_dropped.1 sPendingCallbackStep 0 0 stepQueueNamedCallback
    rfl rfl rfl rfl rfl

/-- A custom-code execution state holding a step with a queue name that
names no container at all. -/
def sBogusQueueStep : EventLoopState :=
  { initialState with
    isCodeExecuting := true
    codeExecutionSteps := [stepPlain (JSVal.vstr "bogusQueue")] }

/-- C7 (counterexample): admitting a step whose `targetQueue` names no
known container does not coerce it into the CallStack container — the step
is dropped: after the admission tick every container is still empty (while
the operation itself still succeeds and returns the step). -/
theorem unknown_queue_not_coerced_cex :
    ((executeNextCodeStep sBogusQueueStep 0 0).1.callStack.length = 0)
    ∧ ((executeNextCodeStep sBogusQueueStep 0 0).1.webAPIs.length = 0)
    ∧ ((executeNextCodeStep sBogusQueueStep 0 0).1.callbackQueue.length = 0)
    ∧ ((executeNextCodeStep sBogusQueueStep 0 0).1.microtaskQueue.length = 0)
    ∧ ((executeNextCodeStep sBogusQueueStep 0 0).2.isSome = true) := by
  refine ⟨rfl, rfl, rfl, rfl, rfl⟩

/-- The admission / move / execution operations of the scheduler, with the
ambient impure inputs (`Date.now()`, `Math.random()`,
`toLocaleTimeString()`) as payload. -/
inductive SchedOp where
  | addTask (ttype : String) (delay : JSVal) (description codeSample : String) (now : Int)
  | nextCodeStep (now : Int) (rand : Rat)
  | move (taskId : Rat)
  | execNext (timeStr : String) (now : Int)
  | complete (taskId : Rat) (timeStr : String) (now : Int)

/-- Apply one scheduler operation to the state. -/
def applySchedOp (op : SchedOp) (s : EventLoopState) : EventLoopState :=
  match op with
  | SchedOp.addTask ttype delay desc csmp now => (addTask s ttype delay desc csmp now).1
  | SchedOp.nextCodeStep now rand => (executeNextCodeStep s now rand).1
  | SchedOp.move tid => moveFromWebAPIToCallback s tid
  | SchedOp.execNext timeStr now => (executeNextTask s timeStr now).1
  | SchedOp.complete tid timeStr now => completeTaskExecution s tid timeStr now

/-- All task ids across the four containers, in container order. -/
def idsOf (s : EventLoopState) : List Rat :=
  (s.callStack ++ s.webAPIs ++ s.callbackQueue ++ s.microtaskQueue).map Task.id

/-- The id an admission operation will assign is not already present (the
counter path guarantees this when the counter dominates; the
`Date.now() + Math.random()` path relies on the clock/randomness). -/
def opFresh (op : SchedOp) (s : EventLoopState) : Prop :=
  match op with
  | SchedOp.addTask _ _ _ _ _ => ((s.nextTaskId : Int) : Rat) ∉ idsOf s
  | SchedOp.nextCodeStep now rand => ((now : Rat) + rand) ∉ idsOf s
  | _ => True

theorem nodup_insert_middle {A B : List Rat} {n : Rat}
    (hnd : (A ++ B).Nodup) (hn : n ∉ A ++ B) : (A ++ n :: B).Nodup := by
  rw [List.nodup_middle]
  exact List.nodup_cons.mpr ⟨hn, hnd⟩

theorem map_id_eraseFirstTaskById (l : List Task) (tid : Rat) :
    (eraseFirstTaskById l tid).map Task.id = (l.map Task.id).erase tid := by
  induction l with
  | nil => rfl
  | cons t rest ih =>
      unfold eraseFirstTaskById
      by_cases h : t.id = tid
      · rw [if_pos h]
        simp [List.erase_cons, h]
      · rw [if_neg h]
        simp [List.erase_cons, h, ih]

theorem nodup_ids_move {cs ws cb ms : List Rat} {tid : Rat}
    (hnd : (cs ++ (ws ++ (cb ++ ms))).Nodup) (hmem : tid ∈ ws) :
    (cs ++ (ws.erase tid ++ (cb ++ tid :: ms))).Nodup := by
  have hp1 : List.Perm (ws ++ (cb ++ ms)) ((tid :: ws.erase tid) ++ (cb ++ ms)) :=
    List.Perm.append_right _ (List.perm_cons_erase hmem)
  have hp2 : List.Perm (tid :: (ws.erase tid ++ (cb ++ ms)))
      (ws.erase tid ++ (cb ++ tid :: ms)) := by
    have h := (@List.perm_middle _ tid (ws.erase tid ++ cb) ms).symm
    simpa [List.append_assoc] using h
  have hperm : List.Perm (ws ++ (cb ++ ms)) (ws.erase tid ++ (cb ++ tid :: ms)) :=
    List.Perm.trans hp1 hp2
  exact (List.Perm.append_left cs hperm).nodup hnd

theorem idsOf_addConsoleOutput (s : EventLoopState) (p : JSVal) (now : Int) :
    idsOf (addConsoleOutput s p now) = idsOf s := rfl

theorem idsOf_updateCodeExecutionVariables (s : EventLoopState) (vs : List (String × JSVal)) :
    idsOf (updateCodeExecutionVariables s vs) = idsOf s := rfl

theorem idsOf_fulfilled (s : EventLoopState) (p : Option Step) :
    idsOf (executeNextCodeStepFulfilled s p) = idsOf s := by
  cases p with
  | none => rfl
  | some st =>
      unfold executeNextCodeStepFulfilled
      dsimp only
      split_ifs <;> rfl

theorem idsOf_complete (s : EventLoopState) (tid : Rat) (timeStr : String) (now : Int) :
    idsOf (completeTaskExecution s tid timeStr now) = idsOf s := by
  unfold completeTaskExecution
  cases s.currentExecutingTask with
  | none => rfl
  | some task =>
      dsimp only
      split_ifs <;> rfl

theorem idsOf_execNext_sublist (s : EventLoopState) (timeStr : String) (now : Int) :
    List.Sublist (idsOf ((executeNextTask s timeStr now).1)) (idsOf s) := by
  unfold executeNextTask
  cases s.microtaskQueue with
  | cons t rest =>
      simp only [idsOf, executeMicrotaskWithSteps, List.map_append]
      exact List.Sublist.append (List.Sublist.refl _) ((List.filter_sublist _).map _)
  | nil =>
    cases s.callbackQueue with
    | cons t rest =>
        simp only [idsOf, executeCallbackWithSteps, List.map_append]
        refine List.Sublist.append (List.Sublist.append (List.Sublist.append
          (List.Sublist.refl _) (List.Sublist.refl _))
          ((List.filter_sublist _).map _)) (List.Sublist.refl _)
    | nil =>
      cases s.callStack with
      | cons t rest =>
          simp only [idsOf, executeSynchronousTaskWithSteps, List.map_append]
          refine List.Sublist.append (List.Sublist.append (List.Sublist.append
            ((List.filter_sublist _).map _) (List.Sublist.refl _))
            (List.Sublist.refl _)) (List.Sublist.refl _)
      | nil => exact List.Sublist.refl _

theorem nodup_ins1 {cs ws cb ms : List Rat} {n : Rat}
    (hnd : (cs ++ (ws ++ (cb ++ ms))).Nodup) (hn : n ∉ cs ++ (ws ++ (cb ++ ms))) :
    (cs ++ n :: (ws ++ (cb ++ ms))).Nodup := nodup_insert_middle hnd hn

theorem nodup_ins2 {cs ws cb ms : List Rat} {n : Rat}
    (hnd : (cs ++ (ws ++ (cb ++ ms))).Nodup) (hn : n ∉ cs ++ (ws ++ (cb ++ ms))) :
    (cs ++ (ws ++ n :: (cb ++ ms))).Nodup := by
  have h1 : ((cs ++ ws) ++ (cb ++ ms)).Nodup := by simpa [List.append_assoc] using hnd
  have h2 : n ∉ (cs ++ ws) ++ (cb ++ ms) := by simpa [List.append_assoc] using hn
  have h3 := nodup_insert_middle h1 h2
  simpa [List.append_assoc] using h3

theorem nodup_ins3 {cs ws cb ms : List Rat} {n : Rat}
    (hnd : (cs ++ (ws ++ (cb ++ ms))).Nodup) (hn : n ∉ cs ++ (ws ++ (cb ++ ms))) :
    (cs ++ (ws ++ (cb ++ (ms ++ [n])))).Nodup := by
  have h1 : ((cs ++ (ws ++ (cb ++ ms))) ++ ([] : List Rat)).Nodup := by simpa using hnd
  have h2 : n ∉ (cs ++ (ws ++ (cb ++ ms))) ++ ([] : List Rat) := by simpa using hn
  have h3 := nodup_insert_middle h1 h2
  simpa [List.append_assoc] using h3

/-- C3: every admission, move or execution operation preserves the
container-membership partition — the ids across the four containers stay
pairwise distinct (each task is in exactly one container, once), provided
admitted ids are fresh; and `moveFromWebAPIToCallback` is an atomic
remove-then-append: the moved id leaves `webAPIs` (its first occurrence is
removed, no copy stays) and is appended, once, to `callbackQueue`. -/
theorem container_partition_preserved :
    (∀ (op : SchedOp) (s : EventLoopState),
        (idsOf s).Nodup → opFresh op s → (idsOf (applySchedOp op s)).Nodup)
    ∧ (∀ (s : EventLoopState) (tid : Rat), tid ∈ s.webAPIs.map Task.id →
        (moveFromWebAPIToCallback s tid).webAPIs.map Task.id
            = (s.webAPIs.map Task.id).erase tid
        ∧ (moveFromWebAPIToCallback s tid).callbackQueue.map Task.id
            = s.callbackQueue.map Task.id ++ [tid]) := by
  constructor
  · intro op s hnd hfresh
    have hnd' : (s.callStack.map Task.id ++ (s.webAPIs.map Task.id
        ++ (s.callbackQueue.map Task.id ++ s.microtaskQueue.map Task.id))).Nodup := by
      simpa [idsOf, List.append_assoc] using hnd
    cases op with
    | addTask ttype delay desc csmp now =>
        simp only [opFresh] at hfresh
        have hfr' : ((s.nextTaskId : Int) : Rat) ∉ s.callStack.map Task.id
            ++ (s.webAPIs.map Task.id
              ++ (s.callbackQueue.map Task.id ++ s.microtaskQueue.map Task.id)) := by
          simpa [idsOf, List.append_assoc] using hfresh
        simp only [applySchedOp]
        unfold addTask
        dsimp only
        split_ifs <;>
          · simp only [idsOf, List.map_append, List.map_cons, List.map_nil,
              List.append_assoc, List.singleton_append]
            first
              | exact nodup_ins1 hnd' hfr'
              | exact nodup_ins2 hnd' hfr'
              | exact nodup_ins3 hnd' hfr'
    | nextCodeStep now rand =>
        simp only [opFresh] at hfresh
        have hfr' : ((now : Rat) + rand) ∉ s.callStack.map Task.id
            ++ (s.webAPIs.map Task.id
              ++ (s.callbackQueue.map Task.id ++ s.microtaskQueue.map Task.id)) := by
          simpa [idsOf, List.append_assoc] using hfresh
        simp only [applySchedOp]
        unfold executeNextCodeStep
        by_cases hg : (!s.isCodeExecuting
            || decide (s.currentCodeStep ≥ s.codeExecutionSteps.length)) = true
        · rw [if_pos hg]; exact hnd
        · rw [if_neg hg]
          cases hstep : s.codeExecutionSteps[s.currentCodeStep]? with
          | none => exact hnd
          | some step =>
              dsimp only
              split_ifs <;>
                simp only [idsOf_fulfilled, idsOf_updateCodeExecutionVariables,
                  idsOf_addConsoleOutput] <;>
                first
                  | exact hnd
                  | · simp only [idsOf, addToCallStack, addToWebAPIs, addToMicrotaskQueue,
                        taskFromStep, List.map_append, List.map_cons, List.map_nil,
                        List.append_assoc, List.singleton_append]
                      first
                        | exact nodup_ins1 hnd' hfr'
                        | exact nodup_ins2 hnd' hfr'
                        | exact nodup_ins3 hnd' hfr'
    | move tid =>
        simp only [applySchedOp]
        unfold moveFromWebAPIToCallback
        cases hfind : s.webAPIs.find? (fun t => decide (t.id = tid)) with
        | none => exact hnd
        | some task =>
            have hp := List.find?_some hfind
            have htid : task.id = tid := by simpa using hp
            have hmem : tid ∈ s.webAPIs.map Task.id :=
              List.mem_map.mpr ⟨task, List.mem_of_find?_eq_some hfind, htid⟩
            dsimp only
            simp only [idsOf, List.map_append, map_id_eraseFirstTaskById, List.map_cons,
              List.map_nil, List.append_assoc, List.singleton_append, htid]
            exact nodup_ids_move hnd' hmem
    | execNext timeStr now =>
        exact List.Nodup.sublist (idsOf_execNext_sublist s timeStr now) hnd
    | complete tid timeStr now =>
        simp only [applySchedOp, idsOf_complete]
        exact hnd
  · intro s tid hmem
    obtain ⟨task, htask, hid⟩ := List.mem_map.mp hmem
    have hsome : (s.webAPIs.find? (fun t => decide (t.id = tid))).isSome :=
      List.find?_isSome.mpr ⟨task, htask, by simp [hid]⟩
    obtain ⟨u, hu⟩ := Option.isSome_iff_exists.mp hsome
    have hpu := List.find?_some hu
    have huid : u.id = tid := by simpa using hpu
    unfold moveFromWebAPIToCallback
    rw [hu]
    constructor
    · simp [map_id_eraseFirstTaskById]
    · simp [huid]

/-- One timer task waiting in Web APIs, one synchronous task on the call
stack. -/
def sMoveEx : EventLoopState :=
  { initialState with
    webAPIs := [mkTask 1 "setTimeout" "t1"]
    callStack := [mkTask 2 "synchronous" "s2"] }

/-- Witness for the partition theorem at a concrete move operation. -/
theorem container_partition_preserved_witness :
    (idsOf sMoveEx).Nodup
    ∧ (idsOf (applySchedOp (SchedOp.move 1) sMoveEx)).Nodup
    ∧ (moveFromWebAPIToCallback sMoveEx 1).webAPIs.map Task.id
        = (sMoveEx.webAPIs.map Task.id).erase 1
    ∧ (moveFromWebAPIToCallback sMoveEx 1).callbackQueue.map Task.id
        = sMoveEx.callbackQueue.map Task.id ++ [1] :=
  ⟨by decide,
   container_partition_preserved.1 (SchedOp.move 1) sMoveEx (by decide) trivial,
   (container_partition_preserved.2 sMoveEx 1 (by decide)).1,
   (container_partition_preserved.2 sMoveEx 1 (by decide)).2⟩

end EventLoopSlice
